import Mathlib

/-!
# Verification of the project-index repository

A shallow embedding, in Lean 4, of the core data structures and operations of
the `project-index` TypeScript repository:

* the indexer (`src/core/indexer.ts`, shipped here as `unnamed/part_002`):
  language detection, parser registry, per-file indexing, symbol index,
  dependency graph construction, incremental update;
* the semantic layer (`src/semantic/semsearch.ts`, `src/semantic/embedder.ts`):
  the embedding cache (write/read/build);
* the CLI call-chain query (`src/cli.ts`, shipped as `unnamed/part_003`):
  call-graph construction and breadth-first path search;
* the per-language call extractors (`src/parsers/shell.ts`, `go.ts`, `rust.ts`).

Modelling conventions:

* JavaScript objects used as string-keyed dictionaries are modelled either as
  insertion-ordered association lists (`List (String × α)`, when iteration
  order is observable) or as total functions (`String → α`, when only lookup
  matters).
* Filesystem access, cryptographic hashing, path arithmetic, regular
  expression matching and tree-sitter / ts-morph parsing are modelled as
  explicit oracle parameters; the surrounding control flow is translated
  faithfully from the source.
* Wall-clock timestamp fields (`createdAt`, `updatedAt`, `lastIndexedAt`) are
  omitted: no verified claim mentions them.
* Numbers in vectors are modelled as rationals (`ℚ`), which round-trip the
  on-disk JSON exactly.  The floating-point arithmetic of `cosine` in
  `embedder.ts` (IEEE binary64 accumulation, square roots and division) is
  not modelled: its numerical behavior is outside this embedding.
-/

namespace ProjIdx

/-! ## Data model (`src/types/index.ts`) -/

/-- `ImportInfo` from `src/types/index.ts`: one import site. -/
structure ImportInfo where
  module : String
  symbols : Option (List String) := none
  isDefault : Option Bool := none
  alias' : Option String := none
deriving DecidableEq, Repr

/-- `ExportInfo` from `src/types/index.ts` (the `type` union is a string tag). -/
structure ExportInfo where
  name : String
  type : String
  line : Nat
  signature : Option String := none
deriving DecidableEq, Repr

/-- `OutlineSection` from `src/types/index.ts`. -/
structure OutlineSection where
  type : String
  name : Option String := none
  lines : Nat × Nat
deriving DecidableEq, Repr

/-- `SymbolInfo` from `src/types/index.ts`.  Recursive through `children`;
the optional `children` array is modelled as a plain list (`[]` for absent:
the only uses iterate over it, where `undefined` and `[]` behave alike),
while the optional `calls` array keeps its optionality (presence is
observable in the call-graph construction). -/
inductive SymbolInfo where
  | mk (name kind : String) (line column : Nat)
       (endLine endColumn : Option Nat)
       (signature docstring : Option String)
       (calls : Option (List String))
       (children : List SymbolInfo)
       (parent : Option String)

def SymbolInfo.name : SymbolInfo → String
  | .mk n _ _ _ _ _ _ _ _ _ _ => n

def SymbolInfo.line : SymbolInfo → Nat
  | .mk _ _ l _ _ _ _ _ _ _ _ => l

def SymbolInfo.calls : SymbolInfo → Option (List String)
  | .mk _ _ _ _ _ _ _ _ c _ _ => c

def SymbolInfo.children : SymbolInfo → List SymbolInfo
  | .mk _ _ _ _ _ _ _ _ _ ch _ => ch

/-- Convenience constructor used in concrete test indexes: a function symbol
with a name, a line and an optional `calls` list. -/
def fnSym (name : String) (line : Nat) (calls : Option (List String)) : SymbolInfo :=
  .mk name "function" line 0 none none none none calls [] none

/-- `ParseResult` from `src/types/index.ts` (optional React/API extras
omitted: no claim mentions them). -/
structure ParseResult where
  imports : List ImportInfo
  exports : List ExportInfo
  symbols : List SymbolInfo
  outline : List OutlineSection

/-- `FileInfo` from `src/types/index.ts` (`lastIndexedAt` wall-clock field and
the optional React/API extras omitted). -/
structure FileInfo where
  path : String
  language : String
  size : Nat
  hash : String
  imports : List ImportInfo
  exports : List ExportInfo
  symbols : List SymbolInfo
  outline : List OutlineSection

/-- An entry of a `dependencyGraph` `imports` array.  In the source both
resolved repo-relative paths and unresolved raw module specifiers are pushed
into the same `string[]`; the constructor records which branch of
`buildDependencyGraph` pushed the entry (the spec's "resolved portion").
`ImpEntry.str` recovers the string stored by the source. -/
inductive ImpEntry where
  | resolved (path : String)
  | external (module : String)
deriving DecidableEq, Repr

/-- The raw string the source pushes for this entry. -/
def ImpEntry.str : ImpEntry → String
  | .resolved p => p
  | .external m => m

/-- `DependencyInfo` from `src/types/index.ts`. -/
structure DepInfo where
  imports : List ImpEntry
  importedBy : List String
deriving DecidableEq, Repr

/-- `ProjectIndex` from `src/types/index.ts` (timestamp and metadata string
fields omitted).  `files` keeps the JS object's insertion order; the other two
dictionaries are modelled as total lookup functions (an absent key maps to
`none` / the empty `DepInfo`). -/
structure ProjectIndex where
  files : List (String × FileInfo)
  symbolIndex : String → Option String
  dependencyGraph : String → DepInfo

/-- `IndexerConfig` from `src/types/index.ts`. -/
structure IndexerConfig where
  projectRoot : String
  indexFile : String
  excludePatterns : List String
  includePatterns : List String
  maxFileSize : Nat
  languages : List String

/-! ## Oracles for the effects the indexer performs -/

/-- What `statSync` + `readFileSync` observe about one file. -/
structure FsEntry where
  size : Nat
  content : String
deriving DecidableEq, Repr

/-- A parser adapter: `parse(content, filePath)` either returns a
`ParseResult` or throws (modelled as `Except`). -/
structure Parser where
  parse : String → String → Except Unit ParseResult

/-! ## String primitives

JS string methods used by the translated code, re-implemented by structural
recursion over the character list (so that concrete evaluations reduce inside
the kernel). -/

/-- Helper for `jsSplit`: accumulate the current segment (reversed). -/
def jsSplitAux (c : Char) : List Char → List Char → List String
  | acc, [] => [String.mk acc.reverse]
  | acc, x :: xs =>
      if x = c then String.mk acc.reverse :: jsSplitAux c [] xs
      else jsSplitAux c (x :: acc) xs

/-- JS `String.prototype.split(sep)` for a one-character separator:
`"a.b".split('.') = ["a","b"]`, `"".split('.') = [""]`,
`"a.".split('.') = ["a",""]`. -/
def jsSplit (c : Char) (s : String) : List String := jsSplitAux c [] s.data

/-- JS `String.prototype.startsWith(prefix)`. -/
def jsStartsWith (s pre : String) : Bool := pre.data.isPrefixOf s.data

/-- ASCII lower-casing of one character (`String.prototype.toLowerCase` for
the extension strings in play). -/
def lowerChar (c : Char) : Char :=
  if 65 ≤ c.toNat ∧ c.toNat ≤ 90 then Char.ofNat (c.toNat + 32) else c

/-- JS `String.prototype.toLowerCase` (ASCII range). -/
def lowerString (s : String) : String := String.mk (s.data.map lowerChar)

/-! ## `ProjectIndexer` (`unnamed/part_002`, i.e. `src/core/indexer.ts`) -/

/-- `ProjectIndexer.initializeParsers`: the parser registry.  The source
registers a single `TypeScriptParser` instance under the four keys
`typescript`, `javascript`, `tsx`, `jsx` — and nothing else. -/
def initializeParsers (tsParser : Parser) : List (String × Parser) :=
  [("typescript", tsParser), ("javascript", tsParser),
   ("tsx", tsParser), ("jsx", tsParser)]

/-- `ProjectIndexer.detectLanguage`: file extension → language tag
(`filePath.split('.').pop()`, lower-cased, looked up in `languageMap`,
default `"unknown"`). -/
def detectLanguage (filePath : String) : String :=
  let ext := lowerString ((jsSplit '.' filePath).getLastD "")
  match ext with
  | "ts" => "typescript"
  | "tsx" => "typescript"
  | "js" => "javascript"
  | "jsx" => "javascript"
  | "py" => "python"
  | "go" => "go"
  | "java" => "java"
  | "cs" => "csharp"
  | "rs" => "rust"
  | _ => "unknown"

/-- `ProjectIndexer.indexFile`.  `fs` maps a repo-relative path to the size
and contents of the file on disk (`none` when `existsSync` is false); `hash`
models `calculateHash` (sha-256 prefix).  A missing file, an over-sized file,
or a parser exception yields `null`; an extension with no registered parser
yields the basic record with empty extraction arrays. -/
def indexFile (cfg : IndexerConfig) (fs : String → Option FsEntry)
    (hash : String → String) (parsers : List (String × Parser))
    (relativePath : String) : Option FileInfo :=
  match fs relativePath with
  | none => none
  | some e =>
    if e.size > cfg.maxFileSize then none
    else
      let content := e.content
      let h := hash content
      let language := detectLanguage relativePath
      match parsers.lookup language with
      | none =>
          some ⟨relativePath, language, e.size, h, [], [], [], []⟩
      | some parser =>
          match parser.parse content relativePath with
          | .ok r =>
              some ⟨relativePath, language, e.size, h,
                    r.imports, r.exports, r.symbols, r.outline⟩
          | .error _ => none

/-- JS object assignment `m[k] = v` on an insertion-ordered association list:
overwrite in place if the key exists, else append. -/
def setAssoc {α : Type} : List (String × α) → String → α → List (String × α)
  | [], k, v => [(k, v)]
  | (k', v') :: t, k, v =>
      if k' = k then (k, v) :: t else (k', v') :: setAssoc t k v

mutual

/-- The `(symbolPath, "path:line")` assignments performed by the inner
`updateSymbol` closure of `ProjectIndexer.updateSymbolIndex`, in execution
order (depth-first, parents before children). -/
def symbolWrites (filePath parentPath : String) : SymbolInfo → List (String × String)
  | .mk name _ line _ _ _ _ _ _ children _ =>
    let symbolPath := if parentPath = "" then name else parentPath ++ "." ++ name
    (symbolPath, filePath ++ ":" ++ toString line) ::
      symbolWritesList filePath symbolPath children

def symbolWritesList (filePath parentPath : String) :
    List SymbolInfo → List (String × String)
  | [] => []
  | s :: t =>
      symbolWrites filePath parentPath s ++ symbolWritesList filePath parentPath t

end

/-- Apply a sequence of dictionary assignments (later writes win). -/
def applyWrites (m : String → Option String) : List (String × String) → (String → Option String)
  | [] => m
  | (k, v) :: t => applyWrites (fun x => if x = k then some v else m x) t

/-- `ProjectIndexer.updateSymbolIndex`: insert every symbol of `fi` (and,
recursively, its children under dot-joined keys) into the symbol index. -/
def updateSymbolIndexF (m : String → Option String) (fi : FileInfo) : String → Option String :=
  applyWrites m (symbolWritesList fi.path "" fi.symbols)

/-- Path arithmetic and existence checks used by
`ProjectIndexer.resolveImport`:
`resolveAbs from candidate` models `resolve(join(root, from, '..'), candidate)`
and `relRoot p` models `relative(root, p).replace(/\\/g, '/')`. -/
structure ResolveOracle where
  resolveAbs : String → String → String
  relRoot : String → String
  exists' : String → Bool

/-- The candidate specifier list of `ProjectIndexer.resolveImport`, in source
order. -/
def importCandidates (module : String) : List String :=
  [module ++ ".ts", module ++ ".tsx", module ++ ".js", module ++ ".jsx",
   module ++ "/index.ts", module ++ "/index.tsx",
   module ++ "/index.js", module ++ "/index.jsx"]

/-- `ProjectIndexer.resolveImport`: a non-relative specifier is external
(`null`); otherwise the first existing candidate is returned repo-relative. -/
def resolveImport (res : ResolveOracle) (module fromFile : String) : Option String :=
  if jsStartsWith module "." then
    (importCandidates module).findSome? (fun candidate =>
      let fullPath := res.resolveAbs fromFile candidate
      let relativePath := res.relRoot fullPath
      if res.exists' fullPath then some relativePath else none)
  else none

/-- Pointwise update of the dependency-graph map. -/
def depUpdate (g : String → DepInfo) (k : String) (f : DepInfo → DepInfo) :
    String → DepInfo :=
  fun x => if x = k then f (g k) else g x

/-- One iteration of the `fileInfo.imports.forEach` body of
`ProjectIndexer.buildDependencyGraph`: resolve the specifier; if it resolves
to an indexed file push the resolved path into `imports(filePath)` and
reciprocally `filePath` into `importedBy(resolved)`; otherwise push the raw
module specifier into `imports(filePath)`. -/
def processImport (files : List (String × FileInfo)) (res : ResolveOracle)
    (g : String → DepInfo) (filePath module : String) : String → DepInfo :=
  match resolveImport res module filePath with
  | some r =>
      if (files.lookup r).isSome then
        depUpdate
          (depUpdate g filePath (fun d => { d with imports := d.imports ++ [.resolved r] }))
          r (fun d => { d with importedBy := d.importedBy ++ [filePath] })
      else
        depUpdate g filePath (fun d => { d with imports := d.imports ++ [.external module] })
  | none =>
      depUpdate g filePath (fun d => { d with imports := d.imports ++ [.external module] })

/-- Process every import of one file. -/
def processFileImports (files : List (String × FileInfo)) (res : ResolveOracle)
    (g : String → DepInfo) (filePath : String) (fi : FileInfo) : String → DepInfo :=
  fi.imports.foldl (fun g' imp => processImport files res g' filePath imp.module) g

/-- `ProjectIndexer.buildDependencyGraph`: initialize every file's entry to
`{imports: [], importedBy: []}` (here: the constant-empty map), then process
every file's imports in file order. -/
def buildDependencyGraph (files : List (String × FileInfo)) (res : ResolveOracle) :
    String → DepInfo :=
  files.foldl (fun g pr => processFileImports files res g pr.1 pr.2)
    (fun _ => ⟨[], []⟩)

/-- One iteration of the `for (const filePath of files)` loop of
`ProjectIndexer.indexProject`: a successful `indexFile` stores the record and
extends the symbol index; a failed one (missing, oversized, or throwing —
the loop's `try`/`catch` and `indexFile`'s own `catch` both just log) leaves
the index untouched and the loop continues. -/
def indexStep (cfg : IndexerConfig) (fs : String → Option FsEntry)
    (hash : String → String) (parsers : List (String × Parser))
    (idx : ProjectIndex) (p : String) : ProjectIndex :=
  match indexFile cfg fs hash parsers p with
  | some fi =>
      { idx with
        files := setAssoc idx.files p fi
        symbolIndex := updateSymbolIndexF idx.symbolIndex fi }
  | none => idx

/-- `ProjectIndexer.indexProject` after file discovery (`discovered` is the
sorted list `discoverFiles` returns): index each file, accumulating `files`
and `symbolIndex`, then build the dependency graph. -/
def indexProject (cfg : IndexerConfig) (fs : String → Option FsEntry)
    (hash : String → String) (parsers : List (String × Parser))
    (res : ResolveOracle) (discovered : List String) : ProjectIndex :=
  let idx := discovered.foldl (indexStep cfg fs hash parsers)
    (⟨[], fun _ => none, fun _ => ⟨[], []⟩⟩ : ProjectIndex)
  { idx with dependencyGraph := buildDependencyGraph idx.files res }

/-- One iteration of the `for (const filePath of changedFiles)` loop of
`ProjectIndexer.updateIndex`, threading the `updated` counter: a successful
`indexFile` overwrites the file's record and counts; a `null` result
(missing file, oversized file, parser exception) leaves the accumulator —
including any existing record for the path — untouched. -/
def updateStep (cfg : IndexerConfig) (fs : String → Option FsEntry)
    (hash : String → String) (parsers : List (String × Parser))
    (acc : ProjectIndex × Nat) (p : String) : ProjectIndex × Nat :=
  match indexFile cfg fs hash parsers p with
  | some fi => ({ acc.1 with files := setAssoc acc.1.files p fi }, acc.2 + 1)
  | none => acc

/-- `ProjectIndexer.updateIndex` after its initial
`this.loadIndex() || await this.indexProject()`: `index` is the loaded index
and `changedFiles` the path set.  Only when at least one file was updated are
the symbol index and dependency graph rebuilt over the current `files`. -/
def updateIndex (cfg : IndexerConfig) (fs : String → Option FsEntry)
    (hash : String → String) (parsers : List (String × Parser))
    (res : ResolveOracle) (index : ProjectIndex) (changedFiles : List String) :
    ProjectIndex :=
  let r := changedFiles.foldl (updateStep cfg fs hash parsers) (index, 0)
  if r.2 > 0 then
    { r.1 with
      symbolIndex := r.1.files.foldl (fun m pr => updateSymbolIndexF m pr.2) (fun _ => none)
      dependencyGraph := buildDependencyGraph r.1.files res }
  else r.1

/-! ## Semantic layer (`src/semantic/semsearch.ts`, `src/semantic/embedder.ts`) -/

/-- `DocEntry` from `semsearch.ts`. -/
structure DocEntry where
  id : String
  file : String
  line : Option Nat
  text : String
deriving DecidableEq, Repr

/-- `DocCache` from `semsearch.ts`; vector components idealized as `ℚ`
(IEEE `Float32Array` values round-trip JSON exactly, so exact arithmetic is
faithful for the claims below). -/
structure DocCache where
  entries : List DocEntry
  vectors : List (List ℚ)
  model : String
deriving DecidableEq, Repr

/-- One line of the on-disk `PROJECT_INDEX.vectors.jsonl` file, at the value
level (JSON encoding/decoding of these records is the identity and is not
re-modelled). -/
inductive CacheLine where
  | header (model : String) (count : Nat)
  | row (entry : DocEntry) (vec : List ℚ)
deriving DecidableEq, Repr

/-- `writeCache`: first a `{model, count}` header line, then one row per
entry carrying its vector.  (For `entries` longer than `vectors` the source
throws on `Array.from(undefined)`; the claims below assume the two lists have
equal length, where `zip` pairs them exactly as the source's `vectors[i]`.) -/
def writeCache (cache : DocCache) : List CacheLine :=
  CacheLine.header cache.model cache.entries.length ::
    (cache.entries.zip cache.vectors).map (fun pr => CacheLine.row pr.1 pr.2)

/-- The `model` JSON field of a line: a row object has no `model` key, which
is falsy in `header.model || 'unknown'`, like the empty string. -/
def CacheLine.modelField : CacheLine → String
  | .header m _ => m
  | .row _ _ => ""

/-- Reading one non-header line: `const {vec, ...rest} = row`.  A header line
appearing after the first line would yield a JS object with none of the
`DocEntry` fields and an undefined `vec` (here: empty strings / `none` / the
empty vector, matching `new Float32Array(undefined)`). -/
def readRow : CacheLine → DocEntry × List ℚ
  | .row e v => (e, v)
  | .header _ _ => (⟨"", "", none, ""⟩, [])

/-- `readCache` on the parsed lines of the cache file: the first line is the
header (`model: header.model || 'unknown'`), every further line contributes
one entry and one vector. -/
def readCache (lines : List CacheLine) : Option DocCache :=
  match lines with
  | [] => none
  | l0 :: rest =>
      let pairs := rest.map readRow
      some { entries := pairs.map Prod.fst
             vectors := pairs.map Prod.snd
             model := if l0.modelField = "" then "unknown" else l0.modelField }

/-- The slice of `ProjectIndex` that `semsearch.ts` declares for itself: just
the symbol index, as an ordered entry list (`Object.entries`). -/
structure SemIndex where
  symbolIndex : List (String × String)

/-- `toText` from `semsearch.ts`. -/
def toText (symbol location : String) : String := symbol ++ " " ++ location

/-- JS `Number(s)` restricted to the optional-line strings that occur in
symbol locations: the empty string is `0`, a decimal numeral is its value,
anything else is `NaN` (`none`; `Number.isFinite` then leaves `line`
undefined).  (Sign/hex/float forms never occur in `"path:line"` values.) -/
def jsNumberNat? (s : Option String) : Option Nat :=
  match s with
  | none => none
  | some s => if s = "" then some 0 else s.toNat?

/-- The entry `buildDocCache` derives from one `symbolIndex` pair:
`const [file, lineStr] = loc.split(':')`. -/
def entryOfSym (sym loc : String) : DocEntry :=
  let parts := jsSplit ':' loc
  let file := parts.headD ""
  { id := file ++ ":" ++ sym
    file := file
    line := jsNumberNat? (parts.get? 1)
    text := toText sym loc }

/-- The entry list `buildDocCache` derives from the current symbol index. -/
def deriveEntries (index : SemIndex) : List DocEntry :=
  index.symbolIndex.map (fun pr => entryOfSym pr.1 pr.2)

/-- The embedding provider as `buildDocCache` sees it: a model identifier and
a text-batch embedding function (`Embedder.get(model, profile)` resolved). -/
structure EmbedderM where
  modelName : String
  embed : List String → List (List ℚ)

/-- `buildDocCache`: derive entries from the symbol index; if a cache was
passed for reuse and its model equals the embedder's model and its entry
count equals the derived entry count, return it as-is; otherwise embed all
texts and build a fresh cache. -/
def buildDocCache (E : EmbedderM) (index : SemIndex) (reuse : Option DocCache) :
    DocCache :=
  let entries := deriveEntries index
  let texts := entries.map (·.text)
  match reuse with
  | some r =>
      if r.model = E.modelName ∧ r.entries.length = entries.length then r
      else { entries := entries, vectors := E.embed texts, model := E.modelName }
  | none => { entries := entries, vectors := E.embed texts, model := E.modelName }

/-! ## Call-chain query (`unnamed/part_003`, i.e. `src/cli.ts`) -/

/-- The call graph the `call-chain` command builds from the loaded index:
for every file, every symbol with a `calls` array (`if (sym.calls)`; an empty
array is truthy) is keyed by its plain name, and every child with a `calls`
array by `parent.child`. -/
def buildCallGraph (files : List (String × FileInfo)) : List (String × List String) :=
  files.foldl (fun cg pr =>
    pr.2.symbols.foldl (fun cg sym =>
      let cg1 := match sym.calls with
        | some cs => setAssoc cg sym.name cs
        | none => cg
      sym.children.foldl (fun cg2 child =>
        match child.calls with
        | some cs => setAssoc cg2 (sym.name ++ "." ++ child.name) cs
        | none => cg2) cg1) cg) []

/-- One queue item of the `findPath` BFS. -/
structure QItem where
  node : String
  path : List String
deriving DecidableEq, Repr

/-- The `while (queue.length > 0)` loop of `findPath`, with explicit fuel
(the source loop always terminates — `visited` grows on every expanding
iteration — and any fuel larger than the iteration count is equivalent).
Checks in source order: target test, then visited/depth test, then expansion
(mark visited, enqueue unvisited callees in insertion order). -/
def findPathAux (callGraph : List (String × List String)) (maxDepth : Nat)
    (target : String) : Nat → List QItem → List String → Option (List String)
  | 0, _, _ => none
  | _ + 1, [], _ => none
  | fuel + 1, item :: queue, visited =>
    if item.node = target then some item.path
    else if visited.contains item.node ∨ item.path.length > maxDepth then
      findPathAux callGraph maxDepth target fuel queue visited
    else
      let visited' := visited ++ [item.node]
      let calls := (callGraph.lookup item.node).getD []
      let queue' := queue ++
        (calls.filter (fun c => ¬ visited'.contains c)).map
          (fun c => ⟨c, item.path ++ [c]⟩)
      findPathAux callGraph maxDepth target fuel queue' visited'

/-- `findPath(start, end)` from the `call-chain` command: BFS from
`{node: start, path: [start]}` with an empty visited set. -/
def findPath (fuel : Nat) (callGraph : List (String × List String))
    (maxDepth : Nat) (start target : String) : Option (List String) :=
  findPathAux callGraph maxDepth target fuel [⟨start, [start]⟩] []

/-! ## Call extraction in the parser adapters
(`src/parsers/shell.ts`, `go.ts`, `rust.ts`; `go.ts` also contains
`PythonParser`).  Every extractor accumulates candidate names into a JS `Set`
and finishes with `Array.from(calls).sort()`. -/

/-- `Set.add`: append iff not already present (insertion-order set). -/
def setAdd (s : List String) (x : String) : List String :=
  if s.contains x then s else s ++ [x]

/-- Accumulate a name sequence into a JS `Set`, i.e. keep first occurrences. -/
def setOfList (l : List String) : List String := l.foldl setAdd []

/-- JS `Array.prototype.sort()` on strings: sort ascending (the UTF-16
code-unit comparison agrees with Lean's `String` order on these names). -/
def jsSortStrings (l : List String) : List String := l.mergeSort

/-- The shared final step of all four `extractCalls` implementations:
`Array.from(set).sort()`. -/
def sortedUnique (l : List String) : List String := jsSortStrings (setOfList l)

/-- `ShellParser.extractFunctionCalls`: every known function name whose
body-occurrence test (the four regular-expression patterns, modelled by the
`testsBody` oracle) succeeds is added to the set; the set is returned
sorted. -/
def extractFunctionCalls (testsBody : String → String → Bool)
    (body : String) (allFunctions : List String) : List String :=
  sortedUnique (allFunctions.filter (fun funcName => testsBody funcName body))

/-- A syntax-tree node as the tree-walking extractors see it: a node kind and
child nodes (tree-sitter / Python-AST specifics live in the name oracles). -/
inductive ASTNode where
  | mk (type : String) (children : List ASTNode)

def ASTNode.type : ASTNode → String
  | .mk t _ => t

mutual

/-- `walkAST`: visit the node, then its children, collecting the names the
callback produces at each node, in visit order. -/
def walkAST (f : ASTNode → List String) : ASTNode → List String
  | .mk t cs => f (.mk t cs) ++ walkASTList f cs

def walkASTList (f : ASTNode → List String) : List ASTNode → List String
  | [] => []
  | c :: cs => walkAST f c ++ walkASTList f cs

end

/-- `RustParser.extractCalls`: collect `getCallExpressionName` of every
`call_expression` node and `getMacroName` of every `macro_invocation` node
(both name extractions modelled as oracles; `none` models a falsy name that
is not added), then sort the set. -/
def rustExtractCalls (getCallExpressionName getMacroName : ASTNode → Option String)
    (node : ASTNode) : List String :=
  sortedUnique (walkAST (fun child =>
    if child.type = "call_expression" then (getCallExpressionName child).toList
    else if child.type = "macro_invocation" then (getMacroName child).toList
    else []) node)

/-- `GoParser.extractCalls`: collect `getCallExpressionName` of every
`call_expression` node, then sort the set. -/
def goExtractCalls (getCallExpressionName : ASTNode → Option String)
    (node : ASTNode) : List String :=
  sortedUnique (walkAST (fun child =>
    if child.type = "call_expression" then (getCallExpressionName child).toList
    else []) node)

/-- `PythonParser.extractCalls`: the per-node `Call`/`Attribute`/`Await`
analysis adds zero, one or two names per visited node (plain name, method
name, and optionally the qualified `receiver.method` form); it is modelled by
the `nodeCallNames` oracle.  The collected set is returned sorted. -/
def pythonExtractCalls (nodeCallNames : ASTNode → List String)
    (node : ASTNode) : List String :=
  sortedUnique (walkAST nodeCallNames node)

/-! ## Persistence traces (`saveIndex` in `unnamed/part_002`, `writeCache`
in `src/semantic/semsearch.ts`) -/

/-- One filesystem side effect performed while persisting. -/
inductive FsOp where
  | mkdirRec (path : String)
  | write (path : String) (content : String)
  | rename (src dst : String)
deriving DecidableEq, Repr

def FsOp.isRename : FsOp → Bool
  | .rename _ _ => true
  | _ => false

def FsOp.isWrite : FsOp → Bool
  | .write _ _ => true
  | _ => false

/-- `path.join` for the repo-relative paths appearing in the claims. -/
def joinPath (a b : String) : String := a ++ "/" ++ b

/-- The index file path `join(projectRoot, indexFile)` of `saveIndex`. -/
def indexPath (cfg : IndexerConfig) : String := joinPath cfg.projectRoot cfg.indexFile

/-- `ProjectIndexer.saveIndex` as its filesystem trace: create the parent
directory when absent (`dirname`/`existsSync` via oracles), then a single
`writeFileSync` of the serialized JSON straight to the index path. -/
def saveIndexOps (cfg : IndexerConfig) (dirname : String → String)
    (dirExists : Bool) (serialize : ProjectIndex → String)
    (index : ProjectIndex) : List FsOp :=
  (if dirExists then [] else [FsOp.mkdirRec (dirname (indexPath cfg))]) ++
    [FsOp.write (indexPath cfg) (serialize index)]

/-- `VECTORS_FILE` and `vectorsPath` from `semsearch.ts`. -/
def vectorsPath (projectRoot : String) : String :=
  joinPath projectRoot (joinPath ".context" (joinPath ".project" "PROJECT_INDEX.vectors.jsonl"))

/-- `writeCache` as its filesystem trace: `mkdirSync(..., {recursive: true})`
on the parent directory, then a single `writeFileSync` of the joined cache
lines straight to the vectors path. -/
def writeCacheOps (dirname : String → String) (serializeLines : List CacheLine → String)
    (projectRoot : String) (cache : DocCache) : List FsOp :=
  [FsOp.mkdirRec (dirname (vectorsPath projectRoot)),
   FsOp.write (vectorsPath projectRoot) (serializeLines (writeCache cache))]

/-- The claim's "atomic replace" shape, from the spec's words: some
temporary path, distinct from the target, is written and then renamed over
the target. -/
def writesViaTempAndRename (ops : List FsOp) (targetPath : String) : Bool :=
  ops.any (fun op =>
    match op with
    | .rename src dst =>
        dst = targetPath && src ≠ targetPath &&
          ops.any (fun w =>
            match w with
            | .write p _ => p = src
            | _ => false)
    | _ => false)

end ProjIdx



namespace ProjIdx

/-! ## Concrete fixtures

Small concrete configurations, filesystems and indexes used by the
counterexample and witness theorems below. -/

/-- A minimal indexer configuration. -/
def cfg0 : IndexerConfig :=
  ⟨"/proj", ".context/.project/PROJECT_INDEX.json", [], [], 1000000, []⟩

/-- A content hash oracle returning a fixed 16-hex-char digest prefix. -/
def constHash : String → String := fun _ => "hash000000000000"

/-- The empty project index. -/
def emptyIndex : ProjectIndex := ⟨[], fun _ => none, fun _ => ⟨[], []⟩⟩

/-- A path-resolution oracle over an empty disk (nothing resolves). -/
def res0 : ResolveOracle := ⟨fun _ c => c, fun p => p, fun _ => false⟩

/-- A TypeScript-parser stand-in whose parse yields one symbol — so that a
file routed to it would get a non-empty symbol list. -/
def tsParserStub : Parser := ⟨fun _ _ => .ok ⟨[], [], [fnSym "stub" 1 none], []⟩⟩

/-- A disk holding a single Python file with one top-level function. -/
def pyFs : String → Option FsEntry :=
  fun p => if p = "main.py" then some ⟨20, "def hello(): pass"⟩ else none

/-- A file declaring functions `a`, `b`, `c` with `a.calls = [b]`,
`b.calls = [c]`, `c.calls = []` (the spec's Scenario D). -/
def chainFile : FileInfo :=
  ⟨"lib/f.ext", "typescript", 1, "h", [], [],
   [fnSym "a" 1 (some ["b"]), fnSym "b" 2 (some ["c"]), fnSym "c" 3 (some [])], []⟩

/-! ## C7 — call-chain breadth-first search -/

/-- **C7.** For an index declaring functions `a`, `b`, `c` with
`a.calls = [b]`, `b.calls = [c]`, `c.calls = []`, the call-chain query from
`a` to `c` with maximum depth 5 returns the path `[a, b, c]`, and the query
from `a` to an undeclared symbol `d` returns not-found; the search is the
breadth-first loop `findPath` over the outgoing call map built by
`buildCallGraph`, expanding callees in insertion order, bounded by the
maximum depth. -/
theorem callChain_scenario :
    findPath 100 (buildCallGraph [("lib/f.ext", chainFile)]) 5 "a" "c"
        = some ["a", "b", "c"] ∧
    findPath 100 (buildCallGraph [("lib/f.ext", chainFile)]) 5 "a" "d" = none :=
  ⟨by decide, by decide⟩

/-! ## C2 — routing of Python files -/

/-- **C2.** The claim says a discovered `.py` file is routed to the
Python-family adapter so that its `FileRecord` carries the file's functions
and classes.  In the code, `initializeParsers` registers parsers only under
`typescript`, `javascript`, `tsx` and `jsx`; a `.py` file detects as
`python`, finds no parser, and takes the empty-extraction fallback: its
record has `language = "python"` and empty `imports`/`exports`/`symbols`/
`outline`, no matter what the (shipped but unregistered) Python parser would
have produced. -/
theorem python_file_routed_to_fallback :
    detectLanguage "main.py" = "python" ∧
    (initializeParsers tsParserStub).lookup "python" = none ∧
    indexFile cfg0 pyFs constHash (initializeParsers tsParserStub) "main.py"
      = some ⟨"main.py", "python", 20, "hash000000000000", [], [], [], []⟩ :=
  ⟨rfl, rfl, rfl⟩

/-! ## C4 — persistence is a direct overwrite, not an atomic replace -/

/-- **C4 counterexample.** Neither `saveIndex` (index JSON) nor `writeCache`
(embedding cache) writes a temporary file and renames it over the target:
the claim's atomic-replace shape is absent from both traces. -/
theorem save_paths_not_atomic :
    writesViaTempAndRename
        (saveIndexOps cfg0 (fun p => p) false (fun _ => "{}") emptyIndex)
        (indexPath cfg0) = false ∧
    writesViaTempAndRename
        (writeCacheOps (fun p => p) (fun _ => "") "/proj" ⟨[], [], "m"⟩)
        (vectorsPath "/proj") = false :=
  ⟨rfl, rfl⟩

/-- **C4 (amended).** `saveIndex` and `writeCache` each write the serialized
content directly to the final target path with a single `writeFileSync`
(after an optional `mkdir`), and never perform a rename; a write that fails
part-way can therefore leave the target file itself corrupted. -/
theorem save_paths_direct_write (cfg : IndexerConfig) (dn dn' : String → String)
    (dirExists : Bool) (ser : ProjectIndex → String)
    (serL : List CacheLine → String) (index : ProjectIndex)
    (root : String) (cache : DocCache) :
    ((saveIndexOps cfg dn dirExists ser index).filter (fun op => op.isWrite)
        = [FsOp.write (indexPath cfg) (ser index)] ∧
      (saveIndexOps cfg dn dirExists ser index).all (fun op => !op.isRename)
        = true) ∧
    ((writeCacheOps dn' serL root cache).filter (fun op => op.isWrite)
        = [FsOp.write (vectorsPath root) (serL (writeCache cache))] ∧
      (writeCacheOps dn' serL root cache).all (fun op => !op.isRename)
        = true) := by
  cases dirExists <;>
    simp [saveIndexOps, writeCacheOps, FsOp.isWrite, FsOp.isRename]

/-! ## C10 — cache round-trip -/

/-- **C10 counterexample.** A `DocCache` whose `model` string is empty (and
whose `entries` and `vectors` have equal length) does not survive the
write/read round-trip: `header.model || 'unknown'` turns the empty model
into `"unknown"`. -/
theorem cache_roundtrip_empty_model :
    readCache (writeCache ⟨[], [], ""⟩) = some ⟨[], [], "unknown"⟩ ∧
    (⟨[], [], ""⟩ : DocCache).entries.length
        = (⟨[], [], ""⟩ : DocCache).vectors.length ∧
    readCache (writeCache ⟨[], [], ""⟩) ≠ some (⟨[], [], ""⟩ : DocCache) :=
  ⟨rfl, rfl, by decide⟩

end ProjIdx

namespace ProjIdx

/-- **C10 (amended).** For a `DocCache` with equally long `entries` and
`vectors` and a non-empty `model` string, reading the cache file right after
writing it returns the cache unchanged — the same model, the same entries in
order, the same vectors element-for-element.  (An empty model string is the
one exception: `header.model || 'unknown'` reads it back as `"unknown"`.) -/
theorem cache_roundtrip (c : DocCache)
    (hlen : c.entries.length = c.vectors.length) (hm : c.model ≠ "") :
    readCache (writeCache c) = some c := by
  obtain ⟨entries, vectors, model⟩ := c
  simp only at hlen hm
  simp only [writeCache, readCache, CacheLine.modelField, List.map_map]
  have hrow : (readRow ∘ fun pr : DocEntry × List ℚ => CacheLine.row pr.1 pr.2) = id := by
    funext pr
    cases pr
    rfl
  rw [hrow]
  simp only [Function.comp_id]
  rw [List.map_fst_zip _ _ hlen.le, List.map_snd_zip _ _ hlen.ge]
  rw [if_neg hm]

/-- A concrete witness cache for the round-trip theorem. -/
def cacheW : DocCache :=
  ⟨[⟨"a.ts:f", "a.ts", some 1, "f a.ts:1"⟩], [[1, 0]], "model-x"⟩

/-- Witness for `cache_roundtrip` at `cacheW`. -/
theorem cache_roundtrip_witness : readCache (writeCache cacheW) = some cacheW :=
  cache_roundtrip cacheW rfl (by decide)

/-! ## C5 — cache reuse policy of `buildDocCache` -/

/-- An embedder fixture with model `"M"`. -/
def embC5 : EmbedderM := ⟨"M", fun ts => ts.map (fun _ => [(1 : ℚ)])⟩

/-- A symbol index with one entry, whose derived text is `"f a.ts:1"`. -/
def semIdx5 : SemIndex := ⟨[("f", "a.ts:1")]⟩

/-- A cache with matching model and entry count but a different entry text. -/
def reuse5 : DocCache := ⟨[⟨"x", "x", none, "other text"⟩], [[(9 : ℚ)]], "M"⟩

/-- **C5 counterexample.** A cache whose model and entry count match the
current embedder and symbol set but whose entry texts differ is reused
verbatim — not rebuilt, contradicting the claimed
`(model, count, texts)` reuse test. -/
theorem buildDocCache_ignores_texts :
    reuse5.model = embC5.modelName ∧
    reuse5.entries.length = (deriveEntries semIdx5).length ∧
    reuse5.entries.map (fun e => e.text)
        ≠ (deriveEntries semIdx5).map (fun e => e.text) ∧
    buildDocCache embC5 semIdx5 (some reuse5) = reuse5 :=
  ⟨rfl, rfl, by decide, rfl⟩

/-- **C5 (amended).** `buildDocCache` reuses a previously loaded cache iff
the cache's model equals the embedder's model and its entry count equals the
derived entry count; the entry texts are not consulted.  In every other case
the cache is rebuilt end-to-end by embedding all derived texts. -/
theorem buildDocCache_reuse_policy (E : EmbedderM) (index : SemIndex) (r : DocCache) :
    (r.model = E.modelName ∧ r.entries.length = (deriveEntries index).length →
        buildDocCache E index (some r) = r) ∧
    (¬ (r.model = E.modelName ∧ r.entries.length = (deriveEntries index).length) →
        buildDocCache E index (some r)
          = ⟨deriveEntries index,
             E.embed ((deriveEntries index).map (fun e => e.text)),
             E.modelName⟩) := by
  constructor <;> intro h <;> simp [buildDocCache, h]

/-- Witness for `buildDocCache_reuse_policy` at the concrete fixtures. -/
theorem buildDocCache_reuse_policy_witness :
    buildDocCache embC5 semIdx5 (some reuse5) = reuse5 :=
  (buildDocCache_reuse_policy embC5 semIdx5 reuse5).1 ⟨rfl, rfl⟩

end ProjIdx

namespace ProjIdx

/-! ## Helper lemmas on association-list assignment -/

/-- Assigning key `q` does not change the lookup of a different key `p`. -/
theorem lookup_setAssoc_ne {α : Type} (m : List (String × α)) (q p : String)
    (v : α) (h : ¬ p = q) : (setAssoc m q v).lookup p = m.lookup p := by
  have hbeq : (p == q) = false := beq_eq_false_iff_ne.mpr h
  induction m with
  | nil => simp [setAssoc, List.lookup, hbeq]
  | cons hd t ih =>
      obtain ⟨k, w⟩ := hd
      by_cases hk : k = q
      · subst hk
        simp [setAssoc, List.lookup, hbeq]
      · simp [setAssoc, hk, List.lookup, ih]

/-! ## C1 — incremental update and deleted files -/

/-- The record of `src/util.ts` in the loaded index. -/
def utilRec : FileInfo :=
  ⟨"src/util.ts", "typescript", 10, "h1", [], [], [fnSym "util" 1 none], []⟩

/-- The record of `src/app.ts` in the loaded index; it imports `./util`. -/
def appRec : FileInfo :=
  ⟨"src/app.ts", "typescript", 12, "h2", [⟨"./util", none, none, none⟩], [], [], []⟩

/-- The loaded index before the incremental update: two files, a symbol-index
entry pointing into `src/util.ts`, and the reciprocal dependency edge. -/
def delIdx : ProjectIndex :=
  ⟨[("src/app.ts", appRec), ("src/util.ts", utilRec)],
   fun s => if s = "util" then some "src/util.ts:1" else none,
   fun p =>
     if p = "src/app.ts" then ⟨[.resolved "src/util.ts"], []⟩
     else if p = "src/util.ts" then ⟨[], ["src/app.ts"]⟩
     else ⟨[], []⟩⟩

/-- The disk after `src/util.ts` has been deleted: only `src/app.ts` exists. -/
def delFs : String → Option FsEntry :=
  fun p => if p = "src/app.ts" then some ⟨12, "import x from './util';"⟩ else none

/-- The result of the incremental update whose path set is the deleted file. -/
def delResult : ProjectIndex :=
  updateIndex cfg0 delFs constHash (initializeParsers tsParserStub) res0 delIdx
    ["src/util.ts"]

/-- **C1 counterexample.** Running the incremental update with the deleted
path `src/util.ts` removes nothing: the file's record is still in `files`,
the symbol-index entry pointing into it survives, its dependency-graph entry
survives, and it still appears in the other file's edges — refuting every
removal the claim asserts. -/
theorem updateIndex_keeps_deleted_file :
    delFs "src/util.ts" = none ∧
    delResult.files.lookup "src/util.ts" = some utilRec ∧
    delResult.symbolIndex "util" = some "src/util.ts:1" ∧
    ImpEntry.resolved "src/util.ts" ∈ (delResult.dependencyGraph "src/app.ts").imports ∧
    "src/app.ts" ∈ (delResult.dependencyGraph "src/util.ts").importedBy :=
  ⟨rfl, rfl, rfl, by decide, by decide⟩

/-- **C1 (amended).** After an incremental update whose path set contains a
file that no longer exists on disk, that file's `FileRecord` is retained
unchanged in the index's `files` map: `indexFile` returns `null` for a
missing path, and `updateIndex` then leaves the entry in place (deletion is
performed only by the watcher's separate `removeFromIndex`). -/
theorem updateIndex_retains_missing_path (cfg : IndexerConfig)
    (fs : String → Option FsEntry) (hash : String → String)
    (parsers : List (String × Parser)) (res : ResolveOracle)
    (index : ProjectIndex) (changed : List String) (p : String)
    (hfs : fs p = none) :
    (updateIndex cfg fs hash parsers res index changed).files.lookup p
      = index.files.lookup p := by
  have hnone : indexFile cfg fs hash parsers p = none := by
    unfold indexFile
    rw [hfs]
  have hstep : ∀ (acc : ProjectIndex × Nat) (q : String),
      ((updateStep cfg fs hash parsers acc q).1).files.lookup p
        = acc.1.files.lookup p := by
    intro acc q
    unfold updateStep
    cases hI : indexFile cfg fs hash parsers q with
    | none => rfl
    | some fi =>
        have hne : ¬ p = q := by
          rintro rfl
          rw [hnone] at hI
          exact Option.noConfusion hI
        simpa using lookup_setAssoc_ne acc.1.files q p fi hne
  have hfold : ∀ (l : List String) (acc : ProjectIndex × Nat),
      ((l.foldl (updateStep cfg fs hash parsers) acc).1).files.lookup p
        = acc.1.files.lookup p := by
    intro l
    induction l with
    | nil => intro acc; rfl
    | cons q t ih =>
        intro acc
        rw [List.foldl_cons, ih, hstep]
  unfold updateIndex
  dsimp only
  split
  · exact hfold changed (index, 0)
  · exact hfold changed (index, 0)

/-- Witness for `updateIndex_retains_missing_path` at the deletion fixture. -/
theorem updateIndex_retains_missing_path_witness :
    delFs "src/util.ts" = none ∧
    delResult.files.lookup "src/util.ts" = delIdx.files.lookup "src/util.ts" :=
  ⟨rfl,
   updateIndex_retains_missing_path cfg0 delFs constHash
     (initializeParsers tsParserStub) res0 delIdx ["src/util.ts"] "src/util.ts" rfl⟩

/-! ## C6 — a parse error drops the file from the index -/

/-- A parser that throws on the content `"syntax error"` and otherwise
returns an empty parse result. -/
def failParser : Parser :=
  ⟨fun content _ =>
    if content = "syntax error" then .error () else .ok ⟨[], [], [], []⟩⟩

/-- A disk with one unparsable TypeScript file and one good one. -/
def fs6 : String → Option FsEntry :=
  fun p =>
    if p = "bad.ts" then some ⟨5, "syntax error"⟩
    else if p = "good.ts" then some ⟨10, "const x = 1;"⟩ else none

/-- **C6 counterexample.** When the adapter's parse call throws for
`bad.ts`, the full build continues (the other file is indexed), but the
failing file gets *no* `FileRecord` at all — it is absent from `files`
rather than retained with empty extraction arrays. -/
theorem parse_error_drops_file :
    (indexProject cfg0 fs6 constHash (initializeParsers failParser) res0
        ["bad.ts", "good.ts"]).files.lookup "bad.ts" = none ∧
    ((indexProject cfg0 fs6 constHash (initializeParsers failParser) res0
        ["bad.ts", "good.ts"]).files.lookup "good.ts").isSome = true :=
  ⟨rfl, rfl⟩

/-- **C6 (amended).** If `indexFile` fails for a path `p` (in particular
when the adapter's parse call throws and `indexFile`'s `catch` returns
`null`), a full build over any discovery list equals the build over the list
with `p` removed — the build continues with the remaining files unaffected —
and the resulting index has no `FileRecord` for `p`. -/
theorem indexProject_skips_failing_file (cfg : IndexerConfig)
    (fs : String → Option FsEntry) (hash : String → String)
    (parsers : List (String × Parser)) (res : ResolveOracle)
    (discovered : List String) (p : String)
    (hp : indexFile cfg fs hash parsers p = none) :
    indexProject cfg fs hash parsers res discovered
      = indexProject cfg fs hash parsers res (discovered.filter (fun q => q != p)) ∧
    (indexProject cfg fs hash parsers res discovered).files.lookup p = none := by
  have hskip : ∀ idx : ProjectIndex, indexStep cfg fs hash parsers idx p = idx := by
    intro idx
    unfold indexStep
    rw [hp]
  have hfold : ∀ (l : List String) (idx : ProjectIndex),
      l.foldl (indexStep cfg fs hash parsers) idx
        = (l.filter (fun q => q != p)).foldl (indexStep cfg fs hash parsers) idx := by
    intro l
    induction l with
    | nil => intro idx; rfl
    | cons q t ih =>
        intro idx
        by_cases hq : q = p
        · subst hq
          simp only [List.filter_cons, bne_self_eq_false, List.foldl_cons,
            cond_false, hskip]
          exact ih idx
        · have : (q != p) = true := bne_iff_ne.mpr hq
          simp only [List.filter_cons, this, List.foldl_cons, cond_true]
          exact ih _
  have hlookup : ∀ (l : List String) (idx : ProjectIndex),
      idx.files.lookup p = none →
      (l.foldl (indexStep cfg fs hash parsers) idx).files.lookup p = none := by
    intro l
    induction l with
    | nil => intro idx h; exact h
    | cons q t ih =>
        intro idx h
        rw [List.foldl_cons]
        apply ih
        unfold indexStep
        cases hI : indexFile cfg fs hash parsers q with
        | none => exact h
        | some fi =>
            have hne : ¬ p = q := by
              rintro rfl
              rw [hp] at hI
              exact Option.noConfusion hI
            simpa [lookup_setAssoc_ne idx.files q p fi hne] using h
  constructor
  · unfold indexProject
    rw [hfold]
  · unfold indexProject
    dsimp only
    exact hlookup discovered ⟨[], fun _ => none, fun _ => ⟨[], []⟩⟩ rfl
end ProjIdx

namespace ProjIdx

/-! ## C8 — every extracted calls list is sorted and duplicate-free -/

/-- Folding `Set.add` over a name sequence yields a duplicate-free list. -/
theorem nodup_setOfList (l : List String) : (setOfList l).Nodup := by
  have key : ∀ (l s : List String), s.Nodup → (l.foldl setAdd s).Nodup := by
    intro l
    induction l with
    | nil => intro s h; exact h
    | cons x t ih =>
        intro s h
        rw [List.foldl_cons]
        apply ih
        unfold setAdd
        split
        · exact h
        · rename_i hc
          have hx : x ∉ s := fun hmem => hc (by simpa using hmem)
          simp [List.nodup_append, h, hx]
  exact key l [] List.nodup_nil

/-- `Array.from(set).sort()` is sorted ascending. -/
theorem sorted_sortedUnique (l : List String) :
    (sortedUnique l).Sorted (· ≤ ·) :=
  List.sorted_mergeSort' (setOfList l)

/-- `Array.from(set).sort()` has no duplicates. -/
theorem nodup_sortedUnique (l : List String) : (sortedUnique l).Nodup :=
  ((List.mergeSort_perm (setOfList l) _).nodup_iff).mpr (nodup_setOfList l)

/-- **C8.** For every calls list produced by a parser adapter's call
extractor — shell (`extractFunctionCalls`), Rust (`rustExtractCalls`), Go
(`goExtractCalls`), Python (`pythonExtractCalls`) — the list is sorted in
ascending order and contains no duplicate names, for any input file body,
function-name set, syntax tree, and name-extraction oracles. -/
theorem extractCalls_sorted_nodup
    (testsBody : String → String → Bool) (body : String)
    (allFunctions : List String)
    (rustCallName rustMacroName goCallName : ASTNode → Option String)
    (pyNames : ASTNode → List String) (nr ng np : ASTNode) :
    ((extractFunctionCalls testsBody body allFunctions).Sorted (· ≤ ·)
        ∧ (extractFunctionCalls testsBody body allFunctions).Nodup)
    ∧ ((rustExtractCalls rustCallName rustMacroName nr).Sorted (· ≤ ·)
        ∧ (rustExtractCalls rustCallName rustMacroName nr).Nodup)
    ∧ ((goExtractCalls goCallName ng).Sorted (· ≤ ·)
        ∧ (goExtractCalls goCallName ng).Nodup)
    ∧ ((pythonExtractCalls pyNames np).Sorted (· ≤ ·)
        ∧ (pythonExtractCalls pyNames np).Nodup) :=
  ⟨⟨sorted_sortedUnique _, nodup_sortedUnique _⟩,
   ⟨sorted_sortedUnique _, nodup_sortedUnique _⟩,
   ⟨sorted_sortedUnique _, nodup_sortedUnique _⟩,
   ⟨sorted_sortedUnique _, nodup_sortedUnique _⟩⟩

end ProjIdx

namespace ProjIdx

/-! ## C3 — reciprocity of the dependency graph -/

/-- The reciprocity invariant: a resolved imports entry `a → b` exists
exactly when the reverse `importedBy` entry `b ← a` does. -/
def DepInv (g : String → DepInfo) : Prop :=
  ∀ a b : String, ImpEntry.resolved b ∈ (g a).imports ↔ a ∈ (g b).importedBy

/-- The freshly initialized graph satisfies the invariant. -/
theorem depInv_empty : DepInv (fun _ => ⟨[], []⟩) := by
  intro a b
  simp

/-- Pushing an unresolved (external) specifier preserves the invariant: it
touches only `imports(fp)`, with an entry that is not a resolved one. -/
theorem depInv_pushExternal (g : String → DepInfo) (fp m : String)
    (h : DepInv g) :
    DepInv (depUpdate g fp
      (fun d => { d with imports := d.imports ++ [.external m] })) := by
  intro a b
  unfold depUpdate
  by_cases ha : a = fp <;> by_cases hb : b = fp
  · subst ha
    subst hb
    simpa [List.mem_append] using h b b
  · subst ha
    simpa [hb, List.mem_append] using h a b
  · subst hb
    simpa [ha, List.mem_append] using h a b
  · simpa [ha, hb, List.mem_append] using h a b

/-- Pushing a resolved edge `fp → r` together withitsreverse entry
preserves the invariant. -/
theorem depInv_pushResolved (g : String → DepInfo) (fp r : String)
    (h : DepInv g) :
    DepInv (depUpdate
      (depUpdate g fp (fun d => { d with imports := d.imports ++ [.resolved r] }))
      r (fun d => { d with importedBy := d.importedBy ++ [fp] })) := by
  intro a b
  have himp : ∀ x : String,
      ((depUpdate
        (depUpdate g fp (fun d => { d with imports := d.imports ++ [.resolved r] }))
        r (fun d => { d with importedBy := d.importedBy ++ [fp] })) x).imports
      = if x = fp then (g x).imports ++ [.resolved r] else (g x).imports := by
    intro x
    unfold depUpdate
    by_cases hx : x = r <;> by_cases hf : x = fp
    · have hrf : r = fp := hx.symm.trans hf
      simp [hx, hf, hrf]
    · have hrf : ¬ r = fp := fun hh => hf (hx.trans hh)
      simp [hx, hf, hrf]
    · have hrf : ¬ fp = r := fun hh => hx (hf.trans hh)
      simp [hx, hf, hrf]
    · simp [hx, hf]
  have hby : ∀ x : String,
      ((depUpdate
        (depUpdate g fp (fun d => { d with imports := d.imports ++ [.resolved r] }))
        r (fun d => { d with importedBy := d.importedBy ++ [fp] })) x).importedBy
      = if x = r then (g x).importedBy ++ [fp] else (g x).importedBy := by
    intro x
    unfold depUpdate
    by_cases hx : x = r <;> by_cases hf : x = fp
    · have hrf : r = fp := hx.symm.trans hf
      simp [hx, hf, hrf]
    · have hrf : ¬ r = fp := fun hh => hf (hx.trans hh)
      simp [hx, hf, hrf]
    · have hrf : ¬ fp = r := fun hh => hx (hf.trans hh)
      simp [hx, hf, hrf]
    · simp [hx, hf]
  rw [himp a, hby b]
  by_cases ha : a = fp <;> by_cases hb : b = r
  · subst ha
    subst hb
    simp [List.mem_append]
  · subst ha
    simpa [hb, List.mem_append] using h a b
  · subst hb
    simpa [ha, List.mem_append] using h a b
  · simpa [ha, hb, List.mem_append] using h a b

/-- One import-processing step preserves the invariant, whichever branch the
resolution takes. -/
theorem depInv_processImport (files : List (String × FileInfo))
    (res : ResolveOracle) (g : String → DepInfo) (fp m : String)
    (h : DepInv g) : DepInv (processImport files res g fp m) := by
  unfold processImport
  cases resolveImport res m fp with
  | none => exact depInv_pushExternal g fp m h
  | some r =>
      cases hk : (files.lookup r).isSome with
      | true =>
          simp only [hk, if_true]
          exact depInv_pushResolved g fp r h
      | false =>
          simp only [hk, Bool.false_eq_true, if_false]
          exact depInv_pushExternal g fp m h

/-- Processing all imports of one file preserves the invariant. -/
theorem depInv_processFileImports (files : List (String × FileInfo))
    (res : ResolveOracle) (g : String → DepInfo) (fp : String) (fi : FileInfo)
    (h : DepInv g) : DepInv (processFileImports files res g fp fi) := by
  unfold processFileImports
  generalize fi.imports = l
  induction l generalizing g with
  | nil => exact h
  | cons imp t ih =>
      rw [List.foldl_cons]
      exact ih _ (depInv_processImport files res g fp imp.module h)

/-- The dependency graph built over any file list satisfies the invariant. -/
theorem depInv_buildDependencyGraph (files : List (String × FileInfo))
    (res : ResolveOracle) : DepInv (buildDependencyGraph files res) := by
  unfold buildDependencyGraph
  have key : ∀ (l : List (String × FileInfo)) (g : String → DepInfo),
      DepInv g →
      DepInv (l.foldl (fun g' pr => processFileImports files res g' pr.1 pr.2) g) := by
    intro l
    induction l with
    | nil => intro g h; exact h
    | cons pr t ih =>
        intro g h
        rw [List.foldl_cons]
        exact ih _ (depInv_processFileImports files res g pr.1 pr.2 h)
  exact key files _ depInv_empty

/-- **C3.** In every index produced by a full build, for all paths `a` and
`b`: `b` occurs as a resolved entry of `dependencyGraph[a].imports` iff `a`
occurs in `dependencyGraph[b].importedBy`; consequently every `importedBy`
entry is backed by a resolved import, so unresolved (external) specifiers —
recorded as `ImpEntry.external`, appearing only in `imports` lists — never
create an `importedBy` entry. -/
theorem dependencyGraph_reciprocity (cfg : IndexerConfig)
    (fs : String → Option FsEntry) (hash : String → String)
    (parsers : List (String × Parser)) (res : ResolveOracle)
    (discovered : List String) (a b : String) :
    (ImpEntry.resolved b ∈
        ((indexProject cfg fs hash parsers res discovered).dependencyGraph a).imports
      ↔ a ∈ ((indexProject cfg fs hash parsers res discovered).dependencyGraph b).importedBy) ∧
    (∀ x : String,
      x ∈ ((indexProject cfg fs hash parsers res discovered).dependencyGraph b).importedBy →
      ImpEntry.resolved b ∈
        ((indexProject cfg fs hash parsers res discovered).dependencyGraph x).imports) := by
  have hinv : DepInv ((indexProject cfg fs hash parsers res discovered).dependencyGraph) := by
    unfold indexProject
    dsimp only
    exact depInv_buildDependencyGraph _ res
  exact ⟨hinv a b, fun x hx => (hinv x b).mpr hx⟩

/-- The resolution oracle for the witness project: `./util` from
`src/app.ts` resolves to the existing `src/util.ts`. -/
def resC3 : ResolveOracle :=
  ⟨fun fromFile candidate =>
      if fromFile = "src/app.ts" ∧ candidate = "./util.ts"
      then "/proj/src/util.ts" else "/none",
   fun p => if p = "/proj/src/util.ts" then "src/util.ts" else "none",
   fun p => p = "/proj/src/util.ts"⟩

/-- The witness project's disk: an app file importing `./util`, and the
util file itself. -/
def fsC3 : String → Option FsEntry :=
  fun p =>
    if p = "src/app.ts" then some ⟨12, "import x from './util';"⟩
    else if p = "src/util.ts" then some ⟨10, "export const u = 1;"⟩ else none

/-- A parser stand-in that extracts the `./util` import from the app file. -/
def importParser : Parser :=
  ⟨fun content _ =>
    if content = "import x from './util';"
    then .ok ⟨[⟨"./util", none, none, none⟩], [], [], []⟩
    else .ok ⟨[], [], [], []⟩⟩

/-- The witness project's full build. -/
def idxC3 : ProjectIndex :=
  indexProject cfg0 fsC3 constHash (initializeParsers importParser) resC3
    ["src/app.ts", "src/util.ts"]

/-- Witness for `dependencyGraph_reciprocity`: in the concrete build, the
resolved edge `src/app.ts → src/util.ts` exists, and the theorem's
forward direction yields the reciprocal `importedBy` entry. -/
theorem dependencyGraph_reciprocity_witness :
    ImpEntry.resolved "src/util.ts" ∈ (idxC3.dependencyGraph "src/app.ts").imports ∧
    "src/app.ts" ∈ (idxC3.dependencyGraph "src/util.ts").importedBy :=
  ⟨by decide,
   (dependencyGraph_reciprocity cfg0 fsC3 constHash (initializeParsers importParser)
      resC3 ["src/app.ts", "src/util.ts"] "src/app.ts" "src/util.ts").1.mp (by decide)⟩

end ProjIdx

namespace ProjIdx

/-- Witness for `indexProject_skips_failing_file` at the concrete fixture:
`bad.ts` fails to parse, and the built index has no record for it. -/
theorem indexProject_skips_failing_file_witness :
    indexFile cfg0 fs6 constHash (initializeParsers failParser) "bad.ts" = none ∧
    (indexProject cfg0 fs6 constHash (initializeParsers failParser) res0
        ["bad.ts", "good.ts"]).files.lookup "bad.ts" = none :=
  ⟨rfl,
   (indexProject_skips_failing_file cfg0 fs6 constHash (initializeParsers failParser)
      res0 ["bad.ts", "good.ts"] "bad.ts" rfl).2⟩

end ProjIdx
